import Mathlib

/-!
# AutoPrint extension — core verification

Shallow embedding of the AutoPrint browser extension's core logic:
the filter-matching engine and the print-orchestration workflow of the
background service worker, the settings validation of
`src/shared/config.js`, and the history trimming of
`src/shared/storage.js`.

Conventions of the embedding:
* JavaScript strings are Lean `String`s; the JS string operations used by
  the code (`toLowerCase`, `trim`, `startsWith`, `split`) are modelled by
  the `js...` functions below, working on the underlying `List Char`.
* Asynchronous browser calls are modelled by their outcomes: a
  `PrintEnv` says whether the fallible steps of the print workflow
  (opening the tab, injecting the print trigger) succeed, and the
  `chrome.downloads.search` result is an `Option DownloadItem`
  (`none` = the id resolved to no download record).  Storage writes are
  assumed to succeed.
* Side effects (history appends, notifications) are collected as lists.
-/

namespace AutoPrint

/-! ## JS string primitives -/

/-- JS `s.toLowerCase()` (character-wise lowering, as on ASCII). -/
def jsToLower (s : String) : String :=
  String.mk (s.data.map Char.toLower)

/-- JS `s.trim()`: remove leading and trailing whitespace. -/
def jsTrim (s : String) : String :=
  String.mk (((s.data.dropWhile Char.isWhitespace).reverse.dropWhile
    Char.isWhitespace).reverse)

/-- JS `s.startsWith(p)`. -/
def jsStartsWith (s p : String) : Bool :=
  p.data.isPrefixOf s.data

/-- JS `s.replace(/^\./, '')`: strip a single leading dot, if present. -/
def stripLeadingDot (s : String) : String :=
  match s.data with
  | '.' :: rest => String.mk rest
  | _ => s

/-- JS `s.split(sep)` for a character-class separator: the list of
segments between separator occurrences (never empty; empty input gives
one empty segment, as in JS). -/
def splitOnChars (sep : Char → Bool) : List Char → List (List Char)
  | [] => [[]]
  | c :: cs =>
    match splitOnChars sep cs with
    | [] => [[c]]
    | h :: t => if sep c then [] :: h :: t else (c :: h) :: t

/-! ## Data model -/

/-- The validated settings record (`CONFIG.DEFAULTS` shape in
`src/shared/config.js`).  `maxHistoryItems` is a JS number; the integer
values are the ones the rest of the code exercises. -/
structure Settings where
  enabled : Bool
  prefixFilter : String
  extensionFilter : String
  showNotifications : Bool
  maxHistoryItems : Int
  deriving Repr, DecidableEq

/-- One field of a raw (unvalidated) JS settings object, as
`validateSettings` discriminates it by `typeof`. -/
inductive JSField where
  | missing
  | boolVal (b : Bool)
  | numVal (n : Int)
  | strVal (s : String)
  | otherVal
  deriving Repr, DecidableEq

/-- A raw JS object that may be passed to `validateSettings`; absent
keys are `.missing`. -/
structure RawSettings where
  enabled : JSField := .missing
  prefixFilter : JSField := .missing
  extensionFilter : JSField := .missing
  showNotifications : JSField := .missing
  maxHistoryItems : JSField := .missing
  deriving Repr, DecidableEq

def JSField.isBool : JSField → Bool
  | .boolVal _ => true
  | _ => false

def JSField.isStr : JSField → Bool
  | .strVal _ => true
  | _ => false

def JSField.isNum : JSField → Bool
  | .numVal _ => true
  | _ => false

/-- The result object built by `checkFilters`. -/
structure FilterResult where
  «matches» : Bool
  prefixMatch : Bool
  extensionMatch : Bool
  details : List String
  deriving Repr, DecidableEq

/-- The history item handed to `addToPrintHistory` by the background
worker (`id` and `timestamp` are attached by the storage layer from the
clock and are not modelled). -/
structure PrintAttemptRecord where
  filename : String
  fullPath : String
  status : String
  fileSize : Option Int := none
  error : Option String := none
  deriving Repr, DecidableEq

/-- A call to `chrome.notifications.create` (type/icon/priority are
constant in the code and omitted). -/
structure Notice where
  title : String
  message : String
  kind : String
  deriving Repr, DecidableEq

/-- The download record returned by `chrome.downloads.search`;
`filename` is the full path. -/
structure DownloadItem where
  filename : String
  fileSize : Option Int := none
  deriving Repr, DecidableEq

/-- The `delta` object of `chrome.downloads.onChanged`: `state` is
`none` when the delta carries no `state` field, otherwise
`some delta.state.current`. -/
structure DownloadDelta where
  id : Nat
  state : Option String
  deriving Repr, DecidableEq

/-- Outcomes of the fallible browser calls inside `printFile`:
`openOk` is whether `chrome.tabs.create` succeeds (with the thrown
message `openErrMsg` otherwise), `triggerOk` whether
`chrome.scripting.executeScript` succeeds. -/
structure PrintEnv where
  openOk : Bool
  triggerOk : Bool
  openErrMsg : String
  deriving Repr, DecidableEq

/-- The observable effects of one `handleDownloadChanged` run. -/
structure Outcome where
  history : List PrintAttemptRecord
  notices : List Notice
  printAttempted : Bool
  deriving Repr, DecidableEq

/-! ## `src/shared/config.js` -/

/-- `getDefaultSettings` (a copy of `CONFIG.DEFAULTS`). -/
def getDefaultSettings : Settings :=
  { enabled := false
    prefixFilter := ""
    extensionFilter := ""
    showNotifications := true
    maxHistoryItems := 100 }

/-- JS `settings?.enabled` on a possibly-null object. -/
def rawEnabled : Option RawSettings → JSField
  | none => .missing
  | some s => s.enabled

/-- JS `settings?.prefixFilter`. -/
def rawPrefixFilter : Option RawSettings → JSField
  | none => .missing
  | some s => s.prefixFilter

/-- JS `settings?.extensionFilter`. -/
def rawExtensionFilter : Option RawSettings → JSField
  | none => .missing
  | some s => s.extensionFilter

/-- JS `settings?.showNotifications`. -/
def rawShowNotifications : Option RawSettings → JSField
  | none => .missing
  | some s => s.showNotifications

/-- JS `settings?.maxHistoryItems`. -/
def rawMaxHistoryItems : Option RawSettings → JSField
  | none => .missing
  | some s => s.maxHistoryItems

/-- `validateSettings(settings)`: each field falls back to its default
unless it has the expected `typeof`; `prefixFilter` is trimmed;
`extensionFilter` is trimmed, lower-cased and has a single leading dot
stripped. -/
def validateSettings (settings : Option RawSettings) : Settings :=
  { enabled :=
      match rawEnabled settings with
      | .boolVal b => b
      | _ => false
    prefixFilter :=
      match rawPrefixFilter settings with
      | .strVal v => jsTrim v
      | _ => ""
    extensionFilter :=
      match rawExtensionFilter settings with
      | .strVal v => stripLeadingDot (jsToLower (jsTrim v))
      | _ => ""
    showNotifications :=
      match rawShowNotifications settings with
      | .boolVal b => b
      | _ => true
    maxHistoryItems :=
      match rawMaxHistoryItems settings with
      | .numVal n => n
      | _ => 100 }

/-! ## `src/shared/storage.js` -/

/-- `loadSettings()`.  The argument is the outcome of the storage read:
`Except.error` models a thrown storage error (caught, defaults
returned); `Except.ok none` models an absent/falsy stored value
(replaced by `{}` via `|| {}`); `Except.ok (some raw)` a stored raw
object.  Every successful read goes through `validateSettings`. -/
def loadSettings : Except String (Option RawSettings) → Settings
  | .error _ => getDefaultSettings
  | .ok v => validateSettings (some (v.getD {}))

/-- `loadPrintHistory()`: a thrown storage read error is caught and the
empty list returned; an absent stored value yields `[]` via `|| []`. -/
def loadPrintHistory (α : Type) : Except String (Option (List α)) → List α
  | .error _ => []
  | .ok v => v.getD []

/-- The `while (history.length > settings.maxHistoryItems) history.pop()`
trimming loop of `addToPrintHistory` (popping removes the last = oldest
element).  On an empty list there is nothing to pop, so the model stops;
the loop is only reached with the just-unshifted, hence non-empty,
list. -/
def popWhileExceeds (maxItems : Int) : List α → List α
  | [] => []
  | a :: as =>
    if ((a :: as).length : Int) > maxItems then
      popWhileExceeds maxItems ((a :: as).dropLast)
    else
      a :: as
termination_by l => l.length
decreasing_by simp [List.length_dropLast]

/-- `addToPrintHistory(item)` acting on the stored history list:
`history.unshift(newItem)` then the trimming loop.  (The attached
`id`/`timestamp` fields are part of the item here.) -/
def addToPrintHistory (maxItems : Int) (item : α) (history : List α) : List α :=
  popWhileExceeds maxItems (item :: history)

/-- The stored history after a sequence of `addToPrintHistory` calls
(earliest first) starting from the empty history, with
`Settings.maxHistoryItems` fixed at `maxItems`. -/
def historyAfterAppends (maxItems : Int) (items : List α) : List α :=
  items.foldl (fun h i => addToPrintHistory maxItems i h) []

/-! ## Background service worker -/

/-- `getFilename(downloadItem)`: the leaf of the full path (last segment
after splitting on `/` and `\`), or `''` for a falsy path. -/
def getFilename (fullPath : String) : String :=
  if fullPath = "" then ""
  else
    String.mk ((splitOnChars (fun c => c == '/' || c == '\\')
      fullPath.data).getLastD [])

/-- `getFileExtension(filename)`: the last `.`-separated segment,
lower-cased, when the filename splits into more than one part;
`''` otherwise. -/
def getFileExtension (filename : String) : String :=
  let parts := splitOnChars (fun c => c == '.') filename.data
  if 1 < parts.length then jsToLower (String.mk (parts.getLastD []))
  else ""

/-- `checkFilters(filename)` of the background worker, reading the
cached `currentSettings` (`none` = not yet loaded).  A sub-filter is
consulted only when its setting is truthy and its trim is truthy; an
inactive sub-filter leaves its `...Match` field at the initial `true`. -/
def checkFilters (currentSettings : Option Settings) (filename : String) :
    FilterResult :=
  match currentSettings with
  | none =>
    { «matches» := false
      prefixMatch := true
      extensionMatch := true
      details := ["Settings not loaded"] }
  | some s =>
    let pfActive := s.prefixFilter ≠ "" && jsTrim s.prefixFilter ≠ ""
    let pm :=
      if pfActive then jsStartsWith (jsToLower filename) (jsToLower s.prefixFilter)
      else true
    let d1 :=
      if pfActive && !pm then
        ["Prefix \"" ++ s.prefixFilter ++ "\" not matched"]
      else []
    let extActive := s.extensionFilter ≠ "" && jsTrim s.extensionFilter ≠ ""
    let fileExt := getFileExtension filename
    let filterExt := stripLeadingDot (jsToLower s.extensionFilter)
    let em := if extActive then fileExt == filterExt else true
    let d2 :=
      if extActive && !em then
        ["Extension \"." ++ filterExt ++ "\" not matched (file has \"." ++
          fileExt ++ "\")"]
      else []
    { «matches» := pm && em
      prefixMatch := pm
      extensionMatch := em
      details := d1 ++ d2 }

/-- `showNotification(title, message, type)`: returns early (no
notification) unless `currentSettings?.showNotifications` is truthy. -/
def showNotification (currentSettings : Option Settings)
    (title message kind : String) : List Notice :=
  match currentSettings with
  | none => []
  | some s => if s.showNotifications then [⟨title, message, kind⟩] else []

/-- `printFile(downloadItem)`: open the file in a tab, wait, then inject
`window.print()`.  Returns the JS boolean result together with the
history appends and notifications performed.
* `chrome.tabs.create` throws (`¬openOk`): the outer catch appends an
  `error` record and fires an error notification; returns `false`.
* the script injection throws (`¬triggerOk`): the inner catch fires a
  "File Ready" notification and returns `true` — nothing is appended to
  the history on this path.
* both succeed: a `printed` record is appended and a success
  notification fired; returns `true`. -/
def printFile (currentSettings : Option Settings) (env : PrintEnv)
    (item : DownloadItem) : Bool × List PrintAttemptRecord × List Notice :=
  let filename := getFilename item.filename
  if env.openOk = false then
    (false,
     [{ filename := filename
        fullPath := item.filename
        status := "error"
        error := some env.openErrMsg }],
     showNotification currentSettings "AutoPrint: Print Failed"
       ("Failed to print \"" ++ filename ++ "\": " ++ env.openErrMsg) "error")
  else if env.triggerOk = false then
    (true, [],
     showNotification currentSettings "AutoPrint: File Ready"
       ("\"" ++ filename ++ "\" opened for printing. Press Ctrl+P to print.")
       "success")
  else
    (true,
     [{ filename := filename
        fullPath := item.filename
        status := "printed"
        fileSize := item.fileSize }],
     showNotification currentSettings "AutoPrint: File Sent to Printer"
       ("\"" ++ filename ++ "\" has been sent to the printer.") "success")

/-- JS `currentSettings?.enabled` truthiness. -/
def enabledOf : Option Settings → Bool
  | none => false
  | some s => s.enabled

/-- `handleDownloadChanged(delta)`: ignore deltas that do not carry a
transition into `complete`; ignore everything while the extension is
disabled (or settings are unloaded); resolve the download id
(`searchResult`), bail out silently when it resolves to nothing; check
the filters; and only then run `printFile`.  `currentSettings` is the
cached settings snapshot after the initialization step. -/
def handleDownloadChanged (currentSettings : Option Settings) (env : PrintEnv)
    (delta : DownloadDelta) (searchResult : Option DownloadItem) : Outcome :=
  if delta.state ≠ some "complete" then ⟨[], [], false⟩
  else if enabledOf currentSettings = false then ⟨[], [], false⟩
  else
    match searchResult with
    | none => ⟨[], [], false⟩
    | some item =>
      let filename := getFilename item.filename
      let fr := checkFilters currentSettings filename
      if fr.«matches» = false then ⟨[], [], false⟩
      else
        let r := printFile currentSettings env item
        ⟨r.2.1, r.2.2, true⟩

/-! ## Spec-side definitions -/

/-- Modelled from the spec's words for the extension of a filename: "the
substring after the last `.`" of the filename, "(no dot present ⇒ empty
extension)".  Used to compare the code's `getFileExtension` against the
specification. -/
def afterLastDot (f : String) : String :=
  if '.' ∈ f.data then
    String.mk ((f.data.reverse.takeWhile (fun c => !(c == '.'))).reverse)
  else ""

/-! ## Helper lemmas: takeWhile / dropWhile -/

theorem takeWhile_append_of_neg (p : α → Bool) (A : List α) (b : α)
    (hb : p b = false) (B : List α) :
    (A ++ b :: B).takeWhile p = A.takeWhile p := by
  induction A with
  | nil => simp [List.takeWhile_cons, hb]
  | cons a A ih =>
    by_cases h : p a <;> simp [List.takeWhile_cons, h, ih]

theorem takeWhile_of_all (p : α → Bool) (A : List α)
    (h : ∀ a ∈ A, p a) : A.takeWhile p = A := by
  have h2 := @List.takeWhile_append_of_pos _ p A [] h
  simpa using h2

theorem takeWhile_append_of_exists_neg (p : α → Bool) (A B : List α)
    (h : ∃ a ∈ A, p a = false) :
    (A ++ B).takeWhile p = A.takeWhile p := by
  induction A with
  | nil => rcases h with ⟨a, ha, _⟩; cases ha
  | cons a A ih =>
    by_cases hpa : p a
    · have h' : ∃ x ∈ A, p x = false := by
        rcases h with ⟨x, hx, hpx⟩
        rcases List.mem_cons.mp hx with rfl | hx'
        · rw [hpa] at hpx; cases hpx
        · exact ⟨x, hx', hpx⟩
      simp [List.takeWhile_cons, hpa, ih h']
    · simp [List.takeWhile_cons, hpa]

theorem dropWhile_idem (p : α → Bool) (l : List α) :
    (l.dropWhile p).dropWhile p = l.dropWhile p := by
  cases h : l.dropWhile p with
  | nil => simp
  | cons a t =>
    have w : l.dropWhile p ≠ [] := by simp [h]
    have hh := List.head_dropWhile_not p l w
    have ha : (l.dropWhile p).head w = a := by simp [h]
    rw [ha] at hh
    rw [List.dropWhile_cons_of_neg (by simp [hh])]

theorem getLastD_of_ne_nil {l : List α} (h : l ≠ []) (d₁ d₂ : α) :
    l.getLastD d₁ = l.getLastD d₂ := by
  cases l with
  | nil => exact absurd rfl h
  | cons a t => rw [List.getLastD_cons, List.getLastD_cons]

/-! ## Helper lemmas: `splitOnChars` -/

theorem splitOnChars_ne_nil (sep : Char → Bool) (l : List Char) :
    splitOnChars sep l ≠ [] := by
  induction l with
  | nil => simp [splitOnChars]
  | cons c cs ih =>
    rw [splitOnChars]
    cases h : splitOnChars sep cs with
    | nil => simp
    | cons hh t => by_cases hsc : sep c = true <;> simp [hsc]

/-- The JS-split facts the filter engine relies on: a filename splits
into a single part exactly when it has no separator, and the last part
is the maximal separator-free suffix. -/
theorem splitOnChars_spec (sep : Char → Bool) (l : List Char) :
    ((splitOnChars sep l).length = 1 ↔ ∀ c ∈ l, sep c = false) ∧
    (splitOnChars sep l).getLastD [] =
      (l.reverse.takeWhile (fun c => !sep c)).reverse := by
  induction l with
  | nil => exact ⟨by simp [splitOnChars], by simp [splitOnChars]⟩
  | cons c cs ih =>
    obtain ⟨ih1, ih2⟩ := ih
    have hne := splitOnChars_ne_nil sep cs
    obtain ⟨hh, t, heq⟩ : ∃ hh t, splitOnChars sep cs = hh :: t := by
      cases h : splitOnChars sep cs with
      | nil => exact absurd h hne
      | cons a b => exact ⟨a, b, rfl⟩
    rw [heq] at ih2
    by_cases hc : sep c
    · have hsplit : splitOnChars sep (c :: cs) = [] :: hh :: t := by
        rw [splitOnChars, heq]; simp [hc]
      constructor
      · constructor
        · intro hlen; rw [hsplit] at hlen; simp at hlen
        · intro hall
          have hcc := hall c (by simp)
          simp [hc] at hcc
      · rw [hsplit, List.getLastD_cons, List.reverse_cons,
          takeWhile_append_of_neg _ _ _ (by simp [hc]) _]
        exact ih2
    · have hcf : sep c = false := by simpa using hc
      have hsplit : splitOnChars sep (c :: cs) = (c :: hh) :: t := by
        rw [splitOnChars, heq]; simp [hc]
      rw [heq] at ih1
      constructor
      · rw [hsplit]
        simp only [List.length_cons] at ih1 ⊢
        constructor
        · intro hlen x hx
          rcases List.mem_cons.mp hx with rfl | hx'
          · exact hcf
          · exact ih1.mp hlen x hx'
        · intro hall
          exact ih1.mpr (fun x hx => hall x (List.mem_cons_of_mem c hx))
      · rw [hsplit, List.reverse_cons]
        cases t with
        | nil =>
          have hall : ∀ x ∈ cs, sep x = false := ih1.mp (by simp)
          have hhcs : hh = cs := by
            have h2 := ih2
            rw [takeWhile_of_all _ _
              (fun x hx => by simp [hall x (List.mem_reverse.mp hx)])] at h2
            simpa [List.getLastD_cons] using h2
          rw [takeWhile_of_all _ _ ?_, hhcs]
          · simp [List.getLastD_cons]
          · intro x hx
            rcases List.mem_append.mp hx with hx' | hx'
            · simp [hall x (List.mem_reverse.mp hx')]
            · simp only [List.mem_singleton] at hx'
              subst hx'; simp [hcf]
        | cons t0 ts =>
          have hex : ∃ x ∈ cs, sep x = true := by
            by_contra hno
            push_neg at hno
            have h1 := ih1.mpr (fun x hx => by simpa using hno x hx)
            simp at h1
          rcases hex with ⟨x, hx, hsx⟩
          rw [takeWhile_append_of_exists_neg _ _ _
            ⟨x, List.mem_reverse.mpr hx, by simp [hsx]⟩, ← ih2]
          simp only [List.getLastD_cons]

/-- The code's `getFileExtension` computes exactly the spec's "substring
after the last dot", lower-cased (and `''` for dotless names). -/
theorem getFileExtension_eq (f : String) :
    getFileExtension f = jsToLower (afterLastDot f) := by
  have hspec := splitOnChars_spec (fun c => c == '.') f.data
  by_cases hc : '.' ∈ f.data
  · have h1 : ¬ (splitOnChars (fun c => c == '.') f.data).length = 1 := by
      rw [hspec.1]
      intro hall
      have h2 := hall '.' hc
      simp at h2
    have h0 : 0 < (splitOnChars (fun c => c == '.') f.data).length :=
      List.length_pos.mpr (splitOnChars_ne_nil _ _)
    have hlen : 1 < (splitOnChars (fun c => c == '.') f.data).length := by omega
    simp only [getFileExtension, afterLastDot]
    rw [if_pos hlen, if_pos hc, hspec.2]
  · have hall : ∀ x ∈ f.data, ((x == '.') : Bool) = false := by
      intro x hx
      simp only [beq_eq_false_iff_ne]
      rintro rfl
      exact hc hx
    have hlen : (splitOnChars (fun c => c == '.') f.data).length = 1 :=
      hspec.1.mpr hall
    simp only [getFileExtension, afterLastDot]
    rw [if_neg (by omega), if_neg hc]
    rfl

/-! ## Helper lemmas: history trimming -/

theorem popWhileExceeds_eq_take (maxItems : Int) (hm : 0 ≤ maxItems) :
    ∀ (n : Nat) (l : List α), l.length ≤ n →
      popWhileExceeds maxItems l = l.take maxItems.toNat
  | 0, l, hl => by
    have h0 : l = [] := List.length_eq_zero.mp (Nat.le_zero.mp hl)
    subst h0
    simp [popWhileExceeds]
  | n + 1, l, hl => by
    match l with
    | [] => simp [popWhileExceeds]
    | a :: as =>
      rw [popWhileExceeds]
      by_cases hgt : ((a :: as).length : Int) > maxItems
      · rw [if_pos hgt]
        have hlen : (a :: as).dropLast.length ≤ n := by
          simp only [List.length_dropLast, List.length_cons] at *
          omega
        rw [popWhileExceeds_eq_take maxItems hm n _ hlen]
        rw [List.dropLast_eq_take, List.take_take]
        have ht : (maxItems.toNat : Int) = maxItems := Int.toNat_of_nonneg hm
        have hmn : maxItems.toNat < (a :: as).length := by
          simp only [List.length_cons] at hgt ⊢
          omega
        congr 1
        omega
      · rw [if_neg hgt]
        have ht : (maxItems.toNat : Int) = maxItems := Int.toNat_of_nonneg hm
        have hle : (a :: as).length ≤ maxItems.toNat := by
          simp only [List.length_cons] at hgt ⊢
          omega
        exact (List.take_of_length_le hle).symm

theorem addToPrintHistory_eq_take (maxItems : Int) (hm : 0 ≤ maxItems)
    (item : α) (h : List α) :
    addToPrintHistory maxItems item h = (item :: h).take maxItems.toNat :=
  popWhileExceeds_eq_take maxItems hm (item :: h).length _ le_rfl

theorem take_append_take (n : Nat) (A B : List α) :
    (A ++ B.take n).take n = (A ++ B).take n := by
  rw [List.take_append_eq_append_take, List.take_append_eq_append_take,
    List.take_take, Nat.min_eq_left (Nat.sub_le n A.length)]

theorem foldl_addToPrintHistory (maxItems : Int) (hm : 0 ≤ maxItems) :
    ∀ (items : List α) (h : List α), h.length ≤ maxItems.toNat →
      items.foldl (fun acc i => addToPrintHistory maxItems i acc) h =
        (items.reverse ++ h).take maxItems.toNat := by
  intro items
  induction items with
  | nil =>
    intro h hh
    simp only [List.foldl_nil, List.reverse_nil, List.nil_append]
    exact (List.take_of_length_le hh).symm
  | cons i rest ih =>
    intro h hh
    rw [List.foldl_cons, addToPrintHistory_eq_take maxItems hm i h,
      ih _ (List.length_take_le _ _), take_append_take, List.reverse_cons,
      List.append_assoc]
    rfl

/-! ## Helper lemmas: trimming is idempotent -/

theorem trimmed_dropWhile_eq_self (p : α → Bool) (l : List α) :
    (((l.dropWhile p).reverse.dropWhile p).reverse).dropWhile p =
      ((l.dropWhile p).reverse.dropWhile p).reverse := by
  cases hC : (l.dropWhile p).reverse.dropWhile p with
  | nil => simp
  | cons x C' =>
    have hAne : l.dropWhile p ≠ [] := by
      intro h
      rw [h] at hC
      simp at hC
    obtain ⟨a, A', hA⟩ : ∃ a A', l.dropWhile p = a :: A' := by
      cases h : l.dropWhile p with
      | nil => exact absurd h hAne
      | cons u v => exact ⟨u, v, rfl⟩
    have hpa : p a = false := by
      have hh := List.head?_dropWhile_not p l
      rw [hA] at hh
      simpa using hh
    have hsuf : (l.dropWhile p).reverse.dropWhile p <:+ (l.dropWhile p).reverse :=
      List.dropWhile_suffix p
    rw [hC, hA] at hsuf
    obtain ⟨pre, hpre⟩ := hsuf
    have hgl : (x :: C').getLast? = (a :: A').reverse.getLast? := by
      rw [← hpre, List.getLast?_append]
      cases hq : (x :: C').getLast? with
      | none => simp at hq
      | some c => simp [hq]
    have hhead : ((x :: C').reverse).head? = some a := by
      rw [List.head?_reverse, hgl, List.getLast?_reverse]
      rfl
    obtain ⟨t0, T', hT⟩ : ∃ t0 T', (x :: C').reverse = t0 :: T' := by
      cases h : (x :: C').reverse with
      | nil =>
        have h2 := congrArg List.length h
        simp at h2
      | cons u v => exact ⟨u, v, rfl⟩
    rw [hT] at hhead ⊢
    simp only [List.head?_cons, Option.some.injEq] at hhead
    subst hhead
    rw [List.dropWhile_cons_of_neg (by simp [hpa])]

theorem jsTrim_idem (s : String) : jsTrim (jsTrim s) = jsTrim s := by
  unfold jsTrim
  apply congrArg
  show (((((((s.data.dropWhile Char.isWhitespace).reverse.dropWhile
      Char.isWhitespace).reverse).dropWhile Char.isWhitespace).reverse).dropWhile
      Char.isWhitespace).reverse) =
    ((s.data.dropWhile Char.isWhitespace).reverse.dropWhile Char.isWhitespace).reverse
  rw [trimmed_dropWhile_eq_self Char.isWhitespace s.data, List.reverse_reverse,
    dropWhile_idem Char.isWhitespace ((s.data.dropWhile Char.isWhitespace).reverse)]

theorem jsTrim_empty : jsTrim "" = "" := rfl

/-- Every settings record the system can hold (they all come out of
`validateSettings`) carries an already-trimmed `prefixFilter`. -/
theorem validateSettings_prefixFilter_trimmed (o : Option RawSettings) :
    jsTrim (validateSettings o).prefixFilter = (validateSettings o).prefixFilter := by
  cases o with
  | none => exact jsTrim_empty
  | some s =>
    cases h : s.prefixFilter <;>
      simp [validateSettings, rawPrefixFilter, h, jsTrim_idem, jsTrim_empty]

/-! ## Claims -/

/-- C9: when the cached settings are not yet loaded, `checkFilters`
fails closed: every filename gets `matches = false` with the single
diagnostic "Settings not loaded", instead of the match-all verdict that
zero active filters would give. -/
theorem checkFilters_settings_not_loaded (f : String) :
    (checkFilters none f).«matches» = false ∧
    (checkFilters none f).details = ["Settings not loaded"] :=
  ⟨rfl, rfl⟩

/-- C10: a thrown storage read is swallowed by both load operations:
`loadSettings` returns the complete default settings record and
`loadPrintHistory` returns the empty list.  (Both are total functions of
the storage outcome, so neither can propagate an error.) -/
theorem load_ops_swallow_errors (e₁ e₂ : String) :
    loadSettings (Except.error e₁) = getDefaultSettings ∧
    loadPrintHistory PrintAttemptRecord (Except.error e₂) = [] :=
  ⟨rfl, rfl⟩

/-- C2 counterexample: a completed download whose id resolves to no
record, with the extension enabled and notifications on, produces no
history entry, no notification and no print attempt — refuting the
claim that an `error` record is appended and an error notification
fired. -/
theorem handleDownloadChanged_unresolved_cex :
    handleDownloadChanged (some ⟨true, "", "", true, 100⟩) ⟨true, true, "e"⟩
      ⟨7, some "complete"⟩ none = ⟨[], [], false⟩ := by
  decide

/-- C2 (amended): when the completed download's record cannot be
resolved by id, the workflow instance aborts silently — no
`PrintAttemptRecord` is appended and no notification is fired (the
failure is only logged to the console). -/
theorem handleDownloadChanged_unresolved_silent (currentSettings : Option Settings)
    (env : PrintEnv) (delta : DownloadDelta) :
    handleDownloadChanged currentSettings env delta none = ⟨[], [], false⟩ := by
  by_cases h1 : delta.state ≠ some "complete"
  · simp [handleDownloadChanged, h1]
  · by_cases h2 : enabledOf currentSettings = false <;>
      simp [handleDownloadChanged, h1, h2]

/-- C7: a download-change event that does not transition into
`complete`, or that arrives while the extension is not enabled, is a
complete no-op: no history entry, no notification, no print workflow. -/
theorem handleDownloadChanged_noop (currentSettings : Option Settings)
    (env : PrintEnv) (delta : DownloadDelta) (searchResult : Option DownloadItem)
    (h : delta.state ≠ some "complete" ∨ enabledOf currentSettings = false) :
    handleDownloadChanged currentSettings env delta searchResult = ⟨[], [], false⟩ := by
  rcases h with h | h
  · simp [handleDownloadChanged, h]
  · by_cases h1 : delta.state ≠ some "complete" <;>
      simp [handleDownloadChanged, h1, h]

/-- C7 witness: a concrete completed download while disabled is a
no-op. -/
theorem handleDownloadChanged_noop_witness :
    handleDownloadChanged (some ⟨false, "", "", true, 100⟩) ⟨true, true, "e"⟩
      ⟨3, some "complete"⟩ (some ⟨"/dl/inv.pdf", some 9⟩) = ⟨[], [], false⟩ :=
  handleDownloadChanged_noop _ _ _ _ (Or.inr rfl)

/-- C1 counterexample: the print trigger throws after a successful open,
`showNotifications` is true — the "File Ready" notification fires and
the call reports success, but the history-append list is empty: no
`PrintAttemptRecord` is created on this path, refuting the claim. -/
theorem printFile_trigger_no_record_cex :
    printFile (some ⟨true, "", "", true, 100⟩) ⟨true, false, "denied"⟩
        ⟨"/downloads/report.pdf", some 4⟩ =
      (true, [],
        [⟨"AutoPrint: File Ready",
          "\"report.pdf\" opened for printing. Press Ctrl+P to print.",
          "success"⟩]) := by
  decide

/-- C1 (amended): when the print-trigger invocation throws after the
file was successfully opened, the workflow terminates in the
degraded-success state: it returns success, fires the manual-print
"File Ready" notification exactly when `showNotifications` is true, and
appends NO `PrintAttemptRecord` to the history. -/
theorem printFile_trigger_fallback (s : Settings) (env : PrintEnv)
    (item : DownloadItem) (hopen : env.openOk = true)
    (htrig : env.triggerOk = false) :
    printFile (some s) env item =
      (true, [],
        if s.showNotifications then
          [⟨"AutoPrint: File Ready",
            "\"" ++ getFilename item.filename ++
              "\" opened for printing. Press Ctrl+P to print.", "success"⟩]
        else []) := by
  simp [printFile, hopen, htrig, showNotification]

/-- C1 witness: with notifications disabled the degraded-success path
returns success with no history entry and no notification. -/
theorem printFile_trigger_fallback_witness :
    printFile (some ⟨true, "", "", false, 100⟩) ⟨true, false, "denied"⟩
      ⟨"/dl/a.pdf", none⟩ = (true, [], []) := by
  have h := printFile_trigger_fallback ⟨true, "", "", false, 100⟩
    ⟨true, false, "denied"⟩ ⟨"/dl/a.pdf", none⟩ rfl rfl
  rw [h]
  decide

/-- C5: with both sub-filters empty the verdict is `matches = true`;
in general `matches` is the conjunction of the recorded sub-filter
results, and an inactive (blank) sub-filter reports `true`. -/
theorem checkFilters_and_semantics (f : String) (s : Settings) :
    (s.prefixFilter = "" → s.extensionFilter = "" →
      (checkFilters (some s) f).«matches» = true) ∧
    (checkFilters (some s) f).«matches» =
      ((checkFilters (some s) f).prefixMatch &&
        (checkFilters (some s) f).extensionMatch) ∧
    (jsTrim s.prefixFilter = "" → (checkFilters (some s) f).prefixMatch = true) ∧
    (jsTrim s.extensionFilter = "" →
      (checkFilters (some s) f).extensionMatch = true) := by
  refine ⟨?_, ?_, ?_, ?_⟩
  · intro h1 h2
    simp [checkFilters, h1, h2]
  · simp [checkFilters]
  · intro h1
    simp [checkFilters, h1]
  · intro h1
    simp [checkFilters, h1]

/-- C5 witness: an empty rule matches any filename, and on a mixed rule
the verdict is the conjunction of the sub-results. -/
theorem checkFilters_and_semantics_witness :
    (checkFilters (some ⟨true, "", "", true, 100⟩) "anything.bin").«matches» = true ∧
    (checkFilters (some ⟨true, "inv", "pdf", true, 100⟩) "inv_2024.docx").«matches» =
      ((checkFilters (some ⟨true, "inv", "pdf", true, 100⟩) "inv_2024.docx").prefixMatch &&
        (checkFilters (some ⟨true, "inv", "pdf", true, 100⟩) "inv_2024.docx").extensionMatch) :=
  ⟨(checkFilters_and_semantics "anything.bin" ⟨true, "", "", true, 100⟩).1 rfl rfl,
    (checkFilters_and_semantics "inv_2024.docx" ⟨true, "inv", "pdf", true, 100⟩).2.1⟩

/-- C4: for every settings record the system can hold (everything the
cache sees has passed `validateSettings`) whose prefix filter is
non-empty and whose extension filter is empty, the verdict is exactly
"the lower-cased filename starts with the lower-cased prefix filter". -/
theorem checkFilters_prefixFilter_correct (o : Option RawSettings) (f : String)
    (hp : (validateSettings o).prefixFilter ≠ "")
    (he : (validateSettings o).extensionFilter = "") :
    (checkFilters (some (validateSettings o)) f).«matches» =
      jsStartsWith (jsToLower f) (jsToLower (validateSettings o).prefixFilter) := by
  have htrim : jsTrim (validateSettings o).prefixFilter ≠ "" := by
    rw [validateSettings_prefixFilter_trimmed]
    exact hp
  simp [checkFilters, hp, htrim, he]

/-- C4 witness: scenario A of the spec, `prefix = "inv"` against
`Invoice_2024.pdf`, matches case-insensitively. -/
theorem checkFilters_prefixFilter_correct_witness :
    (checkFilters
      (some (validateSettings (some { prefixFilter := JSField.strVal "inv" })))
      "Invoice_2024.pdf").«matches» = true := by
  have h := checkFilters_prefixFilter_correct
    (some { prefixFilter := JSField.strVal "inv" }) "Invoice_2024.pdf"
    (by decide) (by decide)
  rw [h]
  decide

/-- C3 counterexample: the extension filter `"."` is non-empty and
active (its dot-stripped form is empty), yet the dotless filename
`README` gets `extensionMatch = true` (and `matches = true`) — refuting
"every filename containing no `.` yields extensionMatched = false
whenever an extension filter is active".  (The value `"."` is reachable:
`validateSettings` turns the raw input `".."` into `"."`.) -/
theorem checkFilters_extension_dotless_cex :
    ("." : String) ≠ "" ∧ ('.' ∉ "README".data) ∧
    (validateSettings (some { extensionFilter := JSField.strVal ".." })).extensionFilter
      = "." ∧
    (checkFilters (some ⟨false, "", ".", true, 100⟩) "README").extensionMatch = true ∧
    (checkFilters (some ⟨false, "", ".", true, 100⟩) "README").«matches» = true := by
  decide

/-- C3 (amended): for a blank prefix filter and a non-blank extension
filter, `matches = true` iff the lower-cased substring of the filename
after its last dot equals the lower-cased extension filter with a
single leading dot stripped; and a dotless filename yields
`extensionMatch = false` whenever that dot-stripped lower-cased filter
is itself non-empty. -/
theorem checkFilters_extension_amended (f : String) (s : Settings)
    (hp : s.prefixFilter = "") (he : jsTrim s.extensionFilter ≠ "") :
    ((checkFilters (some s) f).«matches» = true ↔
      jsToLower (afterLastDot f) = stripLeadingDot (jsToLower s.extensionFilter)) ∧
    (stripLeadingDot (jsToLower s.extensionFilter) ≠ "" → '.' ∉ f.data →
      (checkFilters (some s) f).extensionMatch = false) := by
  have hene : s.extensionFilter ≠ "" := fun h => he (by rw [h]; exact jsTrim_empty)
  constructor
  · rw [← getFileExtension_eq]
    simp [checkFilters, hp, hene, he]
  · intro hne2 hdot
    have hval : getFileExtension f = "" := by
      rw [getFileExtension_eq, afterLastDot, if_neg hdot]
      rfl
    simp [checkFilters, hp, hene, he, hval]
    exact fun hcontra => hne2 hcontra.symm

/-- C3 witness: `REPORT.PDF`-style case-insensitive matching holds, and
a dotless filename fails a real extension filter. -/
theorem checkFilters_extension_amended_witness :
    (checkFilters (some ⟨false, "", "PDF", true, 100⟩) "Report.pdf").«matches» = true ∧
    (checkFilters (some ⟨false, "", "pdf", true, 100⟩) "README").extensionMatch = false := by
  have h1 := checkFilters_extension_amended "Report.pdf"
    ⟨false, "", "PDF", true, 100⟩ rfl (by decide)
  have h2 := checkFilters_extension_amended "README"
    ⟨false, "", "pdf", true, 100⟩ rfl (by decide)
  exact ⟨h1.1.mpr (by decide), h2.2 (by decide) (by decide)⟩

/-- C6: appending N records to an empty history with the cap fixed at
`maxItems ≥ 0` leaves exactly `min N maxItems` records: the most
recently appended ones, newest first (each append prepends, then evicts
the oldest while the length exceeds the cap). -/
theorem historyAfterAppends_spec (maxItems : Int) (hm : 0 ≤ maxItems)
    (items : List α) :
    historyAfterAppends maxItems items = items.reverse.take maxItems.toNat ∧
    (historyAfterAppends maxItems items).length = min items.length maxItems.toNat := by
  have h1 := foldl_addToPrintHistory maxItems hm items [] (by simp)
  rw [List.append_nil] at h1
  unfold historyAfterAppends
  refine ⟨h1, ?_⟩
  rw [h1, List.length_take, List.length_reverse, Nat.min_comm]

/-- C6 witness: three appends with cap 2 keep the two newest records,
newest first. -/
theorem historyAfterAppends_spec_witness :
    historyAfterAppends (2 : Int) [10, 20, 30] = [30, 20] ∧
    (historyAfterAppends (2 : Int) [10, 20, 30]).length = min 3 2 := by
  have h := historyAfterAppends_spec (2 : Int) (by decide) [10, 20, 30]
  constructor
  · rw [h.1]
    decide
  · rw [h.2]
    decide

/-- C8 counterexample: `validateSettings` strips only a single leading
dot, so the raw input `"..pdf"` is normalized to `".pdf"`, which still
begins with a dot — refuting "the returned extensionFilter is always
normalized ... with no leading dot". -/
theorem validateSettings_leading_dot_cex :
    (validateSettings (some { extensionFilter := JSField.strVal "..pdf" })).extensionFilter
      = ".pdf" ∧
    (".pdf" : String).data.head? = some '.' := by
  decide

/-- C8 (amended): `validateSettings` replaces each absent or mistyped
field by its default (`enabled = false`, `prefixFilter = ""`,
`extensionFilter = ""`, `showNotifications = true`,
`maxHistoryItems = 100`, and all defaults for a null input); a
well-typed `prefixFilter` is trimmed and a well-typed `extensionFilter`
is trimmed, lower-cased and stripped of a single leading dot (so a
value with several leading dots keeps the rest); and every
`loadSettings` read returns a `validateSettings` output. -/
theorem validateSettings_fields (o : Option RawSettings)
    (st : Except String (Option RawSettings)) :
    (validateSettings none = getDefaultSettings) ∧
    ((rawEnabled o).isBool = false → (validateSettings o).enabled = false) ∧
    (∀ b, rawEnabled o = JSField.boolVal b → (validateSettings o).enabled = b) ∧
    ((rawPrefixFilter o).isStr = false → (validateSettings o).prefixFilter = "") ∧
    (∀ v, rawPrefixFilter o = JSField.strVal v →
      (validateSettings o).prefixFilter = jsTrim v) ∧
    ((rawExtensionFilter o).isStr = false →
      (validateSettings o).extensionFilter = "") ∧
    (∀ v, rawExtensionFilter o = JSField.strVal v →
      (validateSettings o).extensionFilter = stripLeadingDot (jsToLower (jsTrim v))) ∧
    ((rawShowNotifications o).isBool = false →
      (validateSettings o).showNotifications = true) ∧
    (∀ b, rawShowNotifications o = JSField.boolVal b →
      (validateSettings o).showNotifications = b) ∧
    ((rawMaxHistoryItems o).isNum = false →
      (validateSettings o).maxHistoryItems = 100) ∧
    (∀ n, rawMaxHistoryItems o = JSField.numVal n →
      (validateSettings o).maxHistoryItems = n) ∧
    (∃ o2, loadSettings st = validateSettings o2) := by
  refine ⟨rfl, ?_, ?_, ?_, ?_, ?_, ?_, ?_, ?_, ?_, ?_, ?_⟩
  · intro h
    cases hf : rawEnabled o <;> simp_all [validateSettings, JSField.isBool]
  · intro b hb
    simp [validateSettings, hb]
  · intro h
    cases hf : rawPrefixFilter o <;> simp_all [validateSettings, JSField.isStr]
  · intro v hv
    simp [validateSettings, hv]
  · intro h
    cases hf : rawExtensionFilter o <;> simp_all [validateSettings, JSField.isStr]
  · intro v hv
    simp [validateSettings, hv]
  · intro h
    cases hf : rawShowNotifications o <;> simp_all [validateSettings, JSField.isBool]
  · intro b hb
    simp [validateSettings, hb]
  · intro h
    cases hf : rawMaxHistoryItems o <;> simp_all [validateSettings, JSField.isNum]
  · intro n hn
    simp [validateSettings, hn]
  · cases st with
    | error e => exact ⟨none, rfl⟩
    | ok v => exact ⟨some (v.getD {}), rfl⟩

/-- C8 witness: a mistyped `enabled` falls back to `false` while the
string `extensionFilter` `" .PDF "` is normalized to `"pdf"`, via the
theorem's field clauses. -/
theorem validateSettings_fields_witness :
    (validateSettings (some { enabled := JSField.numVal 3,
                              extensionFilter := JSField.strVal " .PDF " })).enabled
      = false ∧
    (validateSettings (some { enabled := JSField.numVal 3,
                              extensionFilter := JSField.strVal " .PDF " })).extensionFilter
      = "pdf" := by
  have h := validateSettings_fields
    (some { enabled := JSField.numVal 3, extensionFilter := JSField.strVal " .PDF " })
    (Except.error "boom")
  refine ⟨h.2.1 (by decide), ?_⟩
  have h7 := h.2.2.2.2.2.2.1 " .PDF " rfl
  rw [h7]
  decide

end AutoPrint
